import Mathlib

/-!
Verification of the rss-reader repository against its design specification.

The development shallowly embeds the Python sources:
  * `src/rss_reader/storage.py`  — SQLite-backed dedup store (`Storage`);
  * `src/rss_reader/fetcher.py`  — feed fetching, HTTP cache, recency filter;
  * `src/rss_reader/notifier.py` — Feishu / Telegram / Email channel adapters;
  * `src/main.py`                — the `run_once` orchestrator loop.

Modelling conventions:
  * The SQLite table `processed_articles` is a list of records in rowid
    order; `INSERT OR REPLACE` deletes every row with the conflicting
    unique `url_hash` and appends the fresh row (the new row receives a
    fresh AUTOINCREMENT id, hence goes last).
  * `Article.url_hash` is `sha256(url)[:16]` in the source, i.e. a pure
    function of the url string.  Every property claimed of the program
    holds for an arbitrary such function, so the development is
    parametrised by `fp : String → String` and all theorems quantify
    over it; nothing below depends on any property of the hash.
  * Wall-clock reads (`datetime.now()`) become explicit timestamp
    arguments; fallible external calls (feedparser, requests, smtplib,
    the summarizer) become explicit outcome values supplied by the
    caller, with the adapters' own `try/except` logic translated
    faithfully.
  * Python timestamps are modelled as integers on a timeline measured in
    seconds (`timedelta(hours=h)` is `h * 3600`).
-/

set_option linter.unusedVariables false

namespace RssReader

/-- An item of content, the `Article` dataclass of `fetcher.py`.
`published` is an optional timestamp on an integer timeline in seconds. -/
structure Article where
  title : String
  url : String
  content : String
  published : Option Int
  feed_name : String
  category : String
  deriving Repr, DecidableEq

/-- The `Article.url_hash` property: in the source,
`hashlib.sha256(self.url.encode()).hexdigest()[:16]`, a pure function of
`url` alone.  The hash is abstracted as the parameter `fp`; every theorem
holds for all choices of `fp`. -/
def url_hash (fp : String → String) (a : Article) : String :=
  fp a.url

/-- One row of the `processed_articles` table created by
`Storage._init_db` (the AUTOINCREMENT `id` column is represented by the
position in the list). -/
structure ProcessedRecord where
  url_hash : String
  url : String
  title : String
  feed_name : String
  summary : Option String
  processed_at : String
  deriving Repr, DecidableEq

/-- The state of the store: the rows of `processed_articles` in rowid
order. -/
abbrev DB := List ProcessedRecord

/-- The schema invariant enforced by `url_hash TEXT UNIQUE NOT NULL`: at
most one row per fingerprint. -/
def OneRecordPerFp (db : DB) : Prop :=
  db.Pairwise (fun r r' => r.url_hash ≠ r'.url_hash)

/-- `Storage.is_processed`: `SELECT 1 FROM processed_articles WHERE
url_hash = ?` followed by `fetchone() is not None`. -/
def is_processed (fp : String → String) (db : DB) (a : Article) : Bool :=
  db.any (fun r => r.url_hash == url_hash fp a)

/-- `Storage.mark_processed`: `INSERT OR REPLACE INTO processed_articles
(url_hash, url, title, feed_name, summary, processed_at) VALUES (...)`.
SQLite deletes every row conflicting on the UNIQUE `url_hash` and inserts
the new row with a fresh rowid.  `now` is the `datetime.now().isoformat()`
string of the call. -/
def mark_processed (fp : String → String) (db : DB) (a : Article)
    (summary : Option String) (now : String) : DB :=
  db.filter (fun r => r.url_hash != url_hash fp a) ++
    [⟨url_hash fp a, a.url, a.title, a.feed_name, summary, now⟩]

/-- `Storage.filter_new_articles`:
`[a for a in articles if not self.is_processed(a)]`. -/
def filter_new_articles (fp : String → String) (db : DB)
    (articles : List Article) : List Article :=
  articles.filter (fun a => !is_processed fp db a)

/-- `Storage.get_stats`: `total_articles` is `SELECT COUNT(*)`, `by_feed`
is `SELECT feed_name, COUNT(*) ... GROUP BY feed_name ORDER BY count
DESC`, collected into a mapping.  (The remaining operation of the class,
`get_recent_articles`, is a read-only query and does not occur in any
claim.) -/
def get_stats (db : DB) : Nat × List (String × Nat) :=
  let names := db.map (fun r => r.feed_name)
  let by_feed := (names.dedup.map (fun n => (n, names.count n))).mergeSort
    (fun p q => q.2 ≤ p.2)
  (db.length, by_feed)

/-! ### Fetcher (`src/rss_reader/fetcher.py`) -/

/-- Python `\s` whitespace characters (space, tab, newline, carriage
return, vertical tab, form feed). -/
def isPyWs (c : Char) : Bool :=
  c = ' ' || c = '\t' || c = '\n' || c = '\r' || c = '\x0b' || c = '\x0c'

/-- Scanner for `re.sub(r'<[^>]+>', '', text)`.  The second argument is
`none` outside a candidate tag and `some buf` when the scanner has
consumed `buf.reverse` (starting with `'<'`) of a candidate tag.  A
candidate closed by `'>'` with at least one inner character is a match of
the regex and is dropped; `"<>"` and an unterminated `"<…"` do not match
and are emitted verbatim, exactly as the leftmost-match semantics of
`re.sub` keeps them. -/
def stripGo : List Char → Option (List Char) → List Char
  | [], none => []
  | [], some buf => buf.reverse
  | c :: rest, none =>
    if c = '<' then stripGo rest (some [c]) else c :: stripGo rest none
  | c :: rest, some buf =>
    if c = '>' then
      if 2 ≤ buf.length then stripGo rest none
      else buf.reverse ++ c :: stripGo rest none
    else stripGo rest (some (c :: buf))

/-- `re.sub(r'<[^>]+>', '', text)` of `clean_html`. -/
def stripTags (l : List Char) : List Char :=
  stripGo l none

/-- `html.unescape` restricted to the common named entities (the real
function knows the full HTML5 entity table and numeric references; no
claim depends on the table's extent). -/
def unescapeEntities : List Char → List Char
  | [] => []
  | '&' :: 'a' :: 'm' :: 'p' :: ';' :: rest => '&' :: unescapeEntities rest
  | '&' :: 'l' :: 't' :: ';' :: rest => '<' :: unescapeEntities rest
  | '&' :: 'g' :: 't' :: ';' :: rest => '>' :: unescapeEntities rest
  | '&' :: 'q' :: 'u' :: 'o' :: 't' :: ';' :: rest => '"' :: unescapeEntities rest
  | '&' :: 'n' :: 'b' :: 's' :: 'p' :: ';' :: rest => ' ' :: unescapeEntities rest
  | c :: rest => c :: unescapeEntities rest

/-- `re.sub(r'\s+', ' ', text)`: each maximal run of whitespace becomes a
single space.  The flag records whether the previous character belonged
to a whitespace run. -/
def collapseWs : List Char → Bool → List Char
  | [], _ => []
  | c :: r, prevWs =>
    if isPyWs c then
      if prevWs then collapseWs r true else ' ' :: collapseWs r true
    else c :: collapseWs r false

/-- Python `str.strip()`. -/
def pyStrip (l : List Char) : List Char :=
  ((l.dropWhile isPyWs).reverse.dropWhile isPyWs).reverse

/-- `clean_html`: strip HTML tags, decode entities, collapse whitespace
runs to single spaces, strip the ends. -/
def clean_html (s : String) : String :=
  (pyStrip (collapseWs (unescapeEntities (stripTags s.data)) false)).asString

/-- Lookup in a Python dict modelled as an association list in insertion
order (`d.get(k)`). -/
def alGet {α : Type} (m : List (String × α)) (k : String) : Option α :=
  (m.find? (fun p => p.1 == k)).map (fun p => p.2)

/-- Update of a Python dict modelled as an association list: `d[k] = v`
replaces the value in place when the key exists and appends otherwise. -/
def alInsert {α : Type} (m : List (String × α)) (k : String) (v : α) :
    List (String × α) :=
  if m.any (fun p => p.1 == k) then
    m.map (fun p => if p.1 == k then (k, v) else p)
  else m ++ [(k, v)]

/-- One per-feed validator dict `{etag?, modified?}` as stored in the
cache file. -/
abbrev CacheEntry := List (String × String)

/-- The HTTP cache: the persisted `url -> {etag, modified}` mapping. -/
abbrev Cache := List (String × CacheEntry)

/-- One `{name, url, category}` feed configuration entry;
`category` is read with `feed_config.get('category', 'general')`. -/
structure FeedConfig where
  name : String
  url : String
  category : Option String
  deriving Repr, DecidableEq

/-- One raw feedparser entry, as a typed optional-field record:
`title`/`link` are `entry.get(...)`; `content = some v` states that
`entry.content` is a non-empty list with first value `v`;
`summary`/`description` are present iff `hasattr` holds;
`published_parsed`/`updated_parsed` hold the timestamp iff the
corresponding field is truthy and `datetime(*t[:6])` succeeds. -/
structure RawEntry where
  title : Option String
  link : Option String
  content : Option String
  summary : Option String
  description : Option String
  published_parsed : Option Int
  updated_parsed : Option Int
  deriving Repr, DecidableEq

/-- What `feedparser.parse` returned: HTTP status (when any), fresh
validators, the `bozo` flag and the entry list. -/
structure ParsedFeed where
  status : Option Nat
  etag : Option String
  modified : Option String
  bozo : Bool
  entries : List RawEntry
  deriving Repr, DecidableEq

/-- Outcome of the `feedparser.parse` call of `fetch_feed`: either an
exception escaped it (caught by the surrounding `try`), or it produced a
feed object. -/
inductive FetchOutcome where
  | raised (msg : String)
  | parsed (feed : ParsedFeed)
  deriving Repr, DecidableEq

/-- `parse_published_date`: `published_parsed` first, else
`updated_parsed` (a `datetime` constructor failure falls through, which
the `Option` already encodes). -/
def parse_published_date (e : RawEntry) : Option Int :=
  match e.published_parsed with
  | some t => some t
  | none => e.updated_parsed

/-- The per-entry body of the `for entry in feed.entries` loop of
`fetch_feed`: entries without a link are skipped, the content is chosen
by the priority content > summary > description, cleaned, and truncated
to 3000 characters with a `"..."` marker. -/
def normalize_entry (name category : String) (e : RawEntry) :
    Option Article :=
  let title := e.title.getD "无标题"
  let link := e.link.getD ""
  if link = "" then none
  else
    let content0 :=
      match e.content with
      | some v => v
      | none =>
        match e.summary with
        | some s => s
        | none => e.description.getD ""
    let content1 := clean_html content0
    let content2 :=
      if 3000 < content1.length then content1.take 3000 ++ "..." else content1
    some ⟨title, link, content2, parse_published_date e, name, category⟩

/-- `fetch_feed`: conditional fetch of one feed.  The `feedparser.parse`
call is represented by its outcome `o`.  On an exception the `except`
clause returns the articles collected so far (none) and the cache is
untouched; on a 304 the function returns before touching the cache;
otherwise fresh non-empty validators are stored back, a bozo feed with
zero entries yields nothing, and the entries are normalized. -/
def fetch_feed (cfg : FeedConfig) (cache : Cache) (o : FetchOutcome) :
    List Article × Cache :=
  let feed_cache := (alGet cache cfg.url).getD []
  match o with
  | .raised _ => ([], cache)
  | .parsed feed =>
    if feed.status == some 304 then ([], cache)
    else
      let fc1 :=
        match feed.etag with
        | some e => if e ≠ "" then alInsert feed_cache "etag" e else feed_cache
        | none => feed_cache
      let fc2 :=
        match feed.modified with
        | some m => if m ≠ "" then alInsert fc1 "modified" m else fc1
        | none => fc1
      let cache' := alInsert cache cfg.url fc2
      if feed.bozo && feed.entries.isEmpty then ([], cache')
      else
        (feed.entries.filterMap
          (normalize_entry cfg.name (cfg.category.getD "general")), cache')

/-- The `for feed_config in feeds_config` loop of `fetch_all_feeds`,
threading the cache dict through the sequence of fetches and
concatenating the article lists. -/
def fetch_loop : List (FeedConfig × FetchOutcome) → Cache →
    List Article × Cache
  | [], c => ([], c)
  | (cfg, o) :: rest, c =>
    let step := fetch_feed cfg c o
    let restResult := fetch_loop rest step.2
    (step.1 ++ restResult.1, restResult.2)

/-- `filter_by_age`: the explicit accumulation loop of the source, with
`cutoff = now - timedelta(hours=max_age_hours)` on the integer timeline
in seconds. -/
def filter_by_age (articles : List Article) (max_age_hours : Int)
    (now : Int) : List Article :=
  let cutoff := now - max_age_hours * 3600
  articles.foldl
    (fun filtered a =>
      match a.published with
      | none => filtered ++ [a]
      | some p => if cutoff ≤ p then filtered ++ [a] else filtered)
    []

/-- The predicate `filter_by_age` keeps: no published date, or published
on or after the cutoff. -/
def keepsByAge (cutoff : Int) (a : Article) : Bool :=
  match a.published with
  | none => true
  | some p => cutoff ≤ p

/-! ### The persisted cache file (`load_cache` / `save_cache`)

The cache file holds `json.dumps(cache, indent=2)` of the url →
`{etag, modified}` mapping.  The printer below reproduces the layout of
`json.dumps` with `indent=2` for this shape (escaping the two characters
that are significant for the round trip, quote and backslash; the real
`dumps` additionally `\u`-escapes control and non-ASCII characters,
which `loads` decodes right back).  The parser models `json.loads`
restricted to the shape the file holds: an object of objects of strings,
with arbitrary whitespace between tokens. -/

/-- The opening brace character. -/
def lbrace : Char := '\x7b'

/-- The closing brace character. -/
def rbrace : Char := '\x7d'

/-- Whitespace accepted between JSON tokens. -/
def isJsonWs (c : Char) : Bool :=
  c = ' ' || c = '\n' || c = '\t' || c = '\r'

/-- Drop leading JSON whitespace. -/
def skipWs : List Char → List Char
  | [] => []
  | c :: r => if isJsonWs c then skipWs r else c :: r

/-- JSON string-content escaping of `json.dumps` (quote and
backslash). -/
def escJson (s : List Char) : List Char :=
  s.flatMap (fun c => if c = '"' || c = '\\' then ['\\', c] else [c])

/-- A JSON string literal as printed by `json.dumps`. -/
def printJStr (s : List Char) : List Char :=
  '"' :: (escJson s ++ ['"'])

/-- Everything printed after one `"key": "value"` entry of a depth-1
object under `indent=2`: either the `",\n"` separator, the four-space
indent and the next entry, or the closing `"\n  }"`, followed by `tail`.
-/
def innerSep : List (String × String) → List Char → List Char
  | [], tail => '\n' :: ' ' :: ' ' :: rbrace :: tail
  | (k, v) :: t, tail =>
    ',' :: '\n' :: ' ' :: ' ' :: ' ' :: ' ' ::
      (printJStr k.data ++ ':' :: ' ' :: (printJStr v.data ++ innerSep t tail))

/-- A validator object nested one level deep, exactly as
`json.dumps(·, indent=2)` prints it: entries indented four with `": "`
separators and `",\n"` between them, closing brace indented two, the
empty object printed `{}`. -/
def dumpsInner (e : CacheEntry) : List Char :=
  match e with
  | [] => [lbrace, rbrace]
  | (k, v) :: t =>
    lbrace :: '\n' :: ' ' :: ' ' :: ' ' :: ' ' ::
      (printJStr k.data ++ ':' :: ' ' :: (printJStr v.data ++ innerSep t []))

/-- Everything printed after one `"url": {...}` entry of the outer
object: either the separator, the two-space indent and the next entry, or
the closing `"\n}"`, followed by `tail`. -/
def outerSep : Cache → List Char → List Char
  | [], tail => '\n' :: rbrace :: tail
  | (k, v) :: t, tail =>
    ',' :: '\n' :: ' ' :: ' ' ::
      (printJStr k.data ++ ':' :: ' ' :: (dumpsInner v ++ outerSep t tail))

/-- `json.dumps(cache, indent=2)` for the whole mapping (e.g.
`"\x7b\n  \"u\": \x7b\n    \"etag\": \"e\"\n  \x7d\n\x7d"` for a
one-url, one-validator cache). -/
def dumpsCache (m : Cache) : List Char :=
  match m with
  | [] => [lbrace, rbrace]
  | (k, v) :: t =>
    lbrace :: '\n' :: ' ' :: ' ' ::
      (printJStr k.data ++ ':' :: ' ' :: (dumpsInner v ++ outerSep t []))

/-- Parser of a JSON string body after the opening quote: stops at the
first unescaped quote and maps an escape `\c` to `c` (the printer only
emits `\"` and `\\`). -/
def parseStrBody : List Char → Option (List Char × List Char)
  | [] => none
  | c :: rest =>
    if c = '"' then some ([], rest)
    else if c = '\\' then
      match rest with
      | [] => none
      | d :: rest2 =>
        match parseStrBody rest2 with
        | none => none
        | some (s, r) => some (d :: s, r)
    else
      match parseStrBody rest with
      | none => none
      | some (s, r) => some (c :: s, r)

/-- Parser of a JSON string literal at its opening quote. -/
def parseJStr : List Char → Option (List Char × List Char)
  | [] => none
  | c :: rest => if c = '"' then parseStrBody rest else none

/-- Loop over the `"key": "value"` pairs of a depth-1 object, entered at
the first key, fuelled by an upper bound on the number of remaining
pairs. -/
def parseInnerLoop : Nat → List Char → Option (CacheEntry × List Char)
  | 0, _ => none
  | fuel + 1, l =>
    match parseJStr l with
    | none => none
    | some (k, r1) =>
      match skipWs r1 with
      | [] => none
      | c :: r2 =>
        if c = ':' then
          match parseJStr (skipWs r2) with
          | none => none
          | some (v, r3) =>
            match skipWs r3 with
            | [] => none
            | d :: r4 =>
              if d = ',' then
                match parseInnerLoop fuel (skipWs r4) with
                | none => none
                | some (es, r5) => some ((k.asString, v.asString) :: es, r5)
              else if d = rbrace then
                some ([(k.asString, v.asString)], r4)
              else none
        else none

/-- Parser of a JSON object whose values are strings, at the object's
opening brace (after optional whitespace). -/
def parseInner (l : List Char) : Option (CacheEntry × List Char) :=
  match skipWs l with
  | [] => none
  | c :: r =>
    if c = lbrace then
      match skipWs r with
      | [] => none
      | d :: r2 =>
        if d = rbrace then some ([], r2)
        else parseInnerLoop (d :: r2).length (d :: r2)
    else none

/-- Loop over the `"url": {...}` pairs of the outer object, entered at
the first key. -/
def parseOuterLoop : Nat → List Char → Option (Cache × List Char)
  | 0, _ => none
  | fuel + 1, l =>
    match parseJStr l with
    | none => none
    | some (k, r1) =>
      match skipWs r1 with
      | [] => none
      | c :: r2 =>
        if c = ':' then
          match parseInner r2 with
          | none => none
          | some (v, r3) =>
            match skipWs r3 with
            | [] => none
            | d :: r4 =>
              if d = ',' then
                match parseOuterLoop fuel (skipWs r4) with
                | none => none
                | some (m, r5) => some ((k.asString, v) :: m, r5)
              else if d = rbrace then some ([(k.asString, v)], r4)
              else none
        else none

/-- Parser of the outer url → validator-object mapping. -/
def parseOuter (l : List Char) : Option (Cache × List Char) :=
  match skipWs l with
  | [] => none
  | c :: r =>
    if c = lbrace then
      match skipWs r with
      | [] => none
      | d :: r2 =>
        if d = rbrace then some ([], r2)
        else parseOuterLoop (d :: r2).length (d :: r2)
    else none

/-- The model of `json.loads` on the cache file: the whole input must be
consumed up to trailing whitespace. -/
def parseCacheFile (s : String) : Option Cache :=
  match parseOuter s.data with
  | none => none
  | some (m, r) => if skipWs r = [] then some m else none

/-- `load_cache`: `none` stands for a missing cache file; a malformed
file degrades to the empty mapping through the `except` clause. -/
def load_cache (file : Option String) : Cache :=
  match file with
  | none => []
  | some s => (parseCacheFile s).getD []

/-- `save_cache`: `CACHE_FILE.write_text(json.dumps(cache, indent=2))`;
the result is the new content of the cache file. -/
def save_cache (cache : Cache) : String :=
  (dumpsCache cache).asString

/-- `fetch_all_feeds`: load the cache once, run the fetch loop over all
configured feeds, save the cache once; the second component is the new
cache-file content. -/
def fetch_all_feeds (file : Option String)
    (feeds : List (FeedConfig × FetchOutcome)) : List Article × String :=
  let cache := load_cache file
  let result := fetch_loop feeds cache
  (result.1, save_cache result.2)

/-! ### Notifier (`src/rss_reader/notifier.py`) -/

/-- What `FeishuNotifier.send` reads of a webhook response: the HTTP
status and the integer `code` and `StatusCode` fields of
`response.json()` (an absent key gives `None` through `.get`). -/
structure FeishuResp where
  status_code : Nat
  code : Option Int
  statusCodeField : Option Int
  deriving Repr, DecidableEq

/-- What `TelegramNotifier.send` reads of a bot-API response: the HTTP
status and the `ok` field of the JSON body. -/
structure TelegramResp where
  status_code : Nat
  ok : Option Bool
  deriving Repr, DecidableEq

/-- `FeishuNotifier.send`: the HTTP interaction (`requests.post` plus
`response.json()`) is represented by its outcome `tr`; an exception
anywhere in the `try` block is the `.error` case, which the `except`
clause converts to `False`.  On HTTP 200 the call succeeds iff
`result.get('code') == 0 or result.get('StatusCode') == 0`; any other
status yields `False`.  (The card payload built from the article and
summary cannot raise.) -/
def feishu_send (tr : Article → String → Except String FeishuResp)
    (a : Article) (s : String) : Bool :=
  match tr a s with
  | .error _ => false
  | .ok r =>
    if r.status_code == 200 then
      r.code == some 0 || r.statusCodeField == some 0
    else false

/-- `TelegramNotifier.send`: on HTTP 200 the result is
`response.json().get('ok', False)`; other statuses and exceptions yield
`False`. -/
def telegram_send (tr : Article → String → Except String TelegramResp)
    (a : Article) (s : String) : Bool :=
  match tr a s with
  | .error _ => false
  | .ok r => if r.status_code == 200 then r.ok.getD false else false

/-- `EmailNotifier.send`: the SMTP session either completes and the
function returns `True`, or raises and the `except` clause returns
`False`. -/
def email_send (tr : Article → String → Except String Unit)
    (a : Article) (s : String) : Bool :=
  match tr a s with
  | .error _ => false
  | .ok _ => true

/-- One configured channel adapter together with its transport
behaviour for each `(article, summary)` call. -/
inductive Adapter where
  | feishu (tr : Article → String → Except String FeishuResp)
  | telegram (tr : Article → String → Except String TelegramResp)
  | email (tr : Article → String → Except String Unit)

/-- The uniform `send(article, summary) -> bool` contract. -/
def Adapter.send : Adapter → Article → String → Bool
  | .feishu tr, a, s => feishu_send tr a s
  | .telegram tr, a, s => telegram_send tr a s
  | .email tr, a, s => email_send tr a s

/-- Whether the adapter's transport raises an exception inside its
`send` for this article and summary. -/
def Adapter.raises : Adapter → Article → String → Bool
  | .feishu tr, a, s => match tr a s with | .error _ => true | .ok _ => false
  | .telegram tr, a, s => match tr a s with | .error _ => true | .ok _ => false
  | .email tr, a, s => match tr a s with | .error _ => true | .ok _ => false

/-- `Notifier.notify`: iterate the configured `(name, adapter)` pairs in
configuration order, collecting each boolean outcome (the Python dict
keyed by the distinct channel names is the association list in that
order). -/
def notify (notifiers : List (String × Adapter)) (a : Article)
    (s : String) : List (String × Bool) :=
  notifiers.map (fun p => (p.1, p.2.send a s))

/-- `Notifier.has_notifiers`. -/
def has_notifiers (notifiers : List (String × Adapter)) : Bool :=
  decide (0 < notifiers.length)

/-- Concrete channel configuration with a raising Feishu transport, used
as witness input. -/
def cfgW : List (String × Adapter) :=
  [("feishu", .feishu (fun _ _ => .error "boom")),
   ("telegram", .telegram (fun _ _ => .ok ⟨200, some true⟩)),
   ("email", .email (fun _ _ => .ok ()))]

/-- Concrete article used as witness input. -/
def articleW : Article :=
  ⟨"title", "http://u", "content", none, "feed", "general"⟩

/-! ### Message formatting and escaping (notifier payloads) -/

/-- The characters escaped by `TelegramNotifier._escape_markdown`, in
the source's order (backtick and braces written by code point). -/
def mdReservedChars : List Char :=
  ['_', '*', '[', ']', '(', ')', '~', '\x60', '>', '#', '+', '-', '=',
   '|', '\x7b', '\x7d', '.', '!']

/-- One `text.replace(char, '\\' + char)` step of `_escape_markdown`,
on the character list of the string (replacement of a single-character
pattern). -/
def replaceChar (c : Char) (t : List Char) : List Char :=
  t.flatMap (fun x => if x = c then ['\\', c] else [x])

/-- `TelegramNotifier._escape_markdown`: the sequential replacements
over the reserved-character list. -/
def escape_markdown (t : List Char) : List Char :=
  mdReservedChars.foldl (fun acc c => replaceChar c acc) t

/-- The Markdown message built by `TelegramNotifier.send`: the f-string
with `_escape_markdown` applied to the title and the summary, while
`feed_name`, the url and `category` are interpolated raw. -/
def telegram_text (a : Article) (s : String) : List Char :=
  "📰 *".data ++ a.feed_name.data ++ "*\n\n*".data
    ++ escape_markdown a.title.data ++ "*\n\n".data
    ++ escape_markdown s.data
    ++ "\n\n[🔗 阅读原文](".data ++ a.url.data ++ ")\n\n_分类: ".data
    ++ a.category.data ++ "_".data

/-- The HTML body built by `EmailNotifier.send`: the f-string template
with `feed_name`, `title`, `summary`, `url` and `category` interpolated
verbatim — the source applies no HTML escaping anywhere. -/
def email_html (a : Article) (s : String) : List Char :=
  "\n        <html>\n        <body style=\"font-family: Arial, sans-serif; max-width: 600px; margin: 0 auto;\">\n            <div style=\"background: #f5f5f5; padding: 20px; border-radius: 8px;\">\n                <p style=\"color: #666; margin: 0;\">📰 ".data
    ++ a.feed_name.data
    ++ "</p>\n                <h2 style=\"margin: 10px 0;\">".data
    ++ a.title.data
    ++ "</h2>\n                <p style=\"line-height: 1.6;\">".data
    ++ s.data
    ++ "</p>\n                <a href=\"".data
    ++ a.url.data
    ++ "\"\n                   style=\"display: inline-block; background: #1a73e8; color: white;\n                          padding: 10px 20px; text-decoration: none; border-radius: 4px;\">\n                    🔗 阅读原文\n                </a>\n                <p style=\"color: #999; font-size: 12px; margin-top: 20px;\">\n                    分类: ".data
    ++ a.category.data
    ++ "\n                </p>\n            </div>\n        </body>\n        </html>\n        ".data

/-- HTML encoding of the transport's reserved characters.  Modelled from
the spec: "every adapter must escape/encode its target transport's
reserved syntax in title/summary/URL fields"; the source's Email adapter
applies no such encoding, so this definition follows the spec's words
and exists for comparison with `email_html`. -/
def htmlEscapeSpec (t : List Char) : List Char :=
  t.flatMap (fun c =>
    if c = '&' then "&amp;".data
    else if c = '<' then "&lt;".data
    else if c = '>' then "&gt;".data
    else [c])

/-- Substring test on character lists. -/
def containsChunk : List Char → List Char → Bool
  | [], pat => pat.isEmpty
  | c :: r, pat => pat.isPrefixOf (c :: r) || containsChunk r pat

/-! ### Orchestrator (`src/main.py`) -/

/-- The per-article loop of `run_once` (step 7): for each article of the
capped batch, call the summarizer; on success notify (the outcome map is
only printed, it does not flow into the store) and record the article
with its summary, on failure record the article with `None` so it is
not retried.  `clock i` is the `datetime.now().isoformat()` of the i-th
`mark_processed` call; the second component collects the
`mark_processed(article, summary, timestamp)` calls in order. -/
def process_loop (fp : String → String) (summarize : Article → Option String)
    (clock : Nat → String) :
    List Article → Nat → DB → DB × List (Article × Option String × String)
  | [], _, db => (db, [])
  | a :: rest, i, db =>
    match summarize a with
    | some s =>
      let db' := mark_processed fp db a (some s) (clock i)
      let r := process_loop fp summarize clock rest (i + 1) db'
      (r.1, (a, some s, clock i) :: r.2)
    | none =>
      let db' := mark_processed fp db a none (clock i)
      let r := process_loop fp summarize clock rest (i + 1) db'
      (r.1, (a, none, clock i) :: r.2)

/-- `run_once` from the point where the articles have been fetched:
filter by age, drop already-processed articles, return early when
nothing is new, cap the batch at `max_articles_per_run`, and run the
per-article loop.  (Fetching itself is `fetch_all_feeds`; the guard for
an empty feed configuration returns before any article exists.) -/
def run_once (fp : String → String) (summarize : Article → Option String)
    (clock : Nat → String) (max_articles : Nat)
    (max_age_hours now : Int) (all_articles : List Article) (db : DB) :
    DB × List (Article × Option String × String) :=
  let recent := filter_by_age all_articles max_age_hours now
  let new_articles := filter_new_articles fp db recent
  if new_articles = [] then (db, [])
  else process_loop fp summarize clock (new_articles.take max_articles) 0 db

/-! ### Lemmas about the store -/

/-- Marking `b` makes exactly the articles processed that share `b`'s
fingerprint or were processed before. -/
theorem is_processed_mark (fp : String → String) (db : DB) (a b : Article)
    (s : Option String) (t : String) :
    is_processed fp (mark_processed fp db b s t) a =
      (url_hash fp b == url_hash fp a || is_processed fp db a) := by
  simp only [is_processed, mark_processed, List.any_append, List.any_filter]
  by_cases h : url_hash fp b = url_hash fp a
  · simp [h]
  · have hne : (url_hash fp b == url_hash fp a) = false := by
      simp [h]
    simp only [List.any_cons, List.any_nil, hne, Bool.or_false, Bool.false_or]
    congr 1
    funext r
    by_cases hr : r.url_hash = url_hash fp a
    · simp [hr, bne, Ne.symm h]
    · simp [hr]

/-- Marking never un-processes an article. -/
theorem is_processed_mark_mono (fp : String → String) {db : DB} {a : Article}
    (b : Article) (s : Option String) (t : String)
    (h : is_processed fp db a = true) :
    is_processed fp (mark_processed fp db b s t) a = true := by
  rw [is_processed_mark]
  simp [h]

/-- An article is processed right after being marked. -/
theorem is_processed_mark_self (fp : String → String) (db : DB) (a : Article)
    (s : Option String) (t : String) :
    is_processed fp (mark_processed fp db a s t) a = true := by
  rw [is_processed_mark]
  simp

/-- After folding `mark_processed` over a batch, an article is processed
iff it was processed before or an article of the batch shares its
fingerprint; we only need the forward direction. -/
theorem is_processed_foldl_mark (fp : String → String)
    (sf : Article → Option String) (tf : Article → String) :
    ∀ (batch : List Article) (db : DB) (a : Article),
      (is_processed fp db a = true ∨ a ∈ batch) →
      is_processed fp
        (batch.foldl (fun d x => mark_processed fp d x (sf x) (tf x)) db) a
        = true := by
  intro batch
  induction batch with
  | nil =>
    intro db a h
    simpa using h.resolve_right (by simp)
  | cons b bs ih =>
    intro db a h
    rw [List.foldl_cons]
    rcases h with h | h
    · exact ih _ a (Or.inl (is_processed_mark_mono fp b (sf b) (tf b) h))
    · rcases List.mem_cons.mp h with rfl | hmem
      · exact ih _ a (Or.inl (is_processed_mark_self fp db a (sf a) (tf a)))
      · exact ih _ a (Or.inr hmem)

/-! ### Claim C1 -/

/-- C1: every ProcessedStore operation preserves the one-record-per-
fingerprint invariant (the only mutating operation is `mark_processed`;
the queries leave the state untouched by construction), and calling
`mark_processed(item, s1)` then `mark_processed(item, s2)` leaves exactly
one record for the item's fingerprint, carrying `s2` and the timestamp of
the second call. -/
theorem mark_processed_upsert (fp : String → String) (db : DB) (a : Article)
    (s1 s2 : Option String) (t1 t2 : String) (h : OneRecordPerFp db) :
    OneRecordPerFp (mark_processed fp db a s1 t1) ∧
    (mark_processed fp (mark_processed fp db a s1 t1) a s2 t2).filter
        (fun r => r.url_hash == url_hash fp a) =
      [⟨url_hash fp a, a.url, a.title, a.feed_name, s2, t2⟩] := by
  constructor
  · unfold OneRecordPerFp mark_processed
    rw [List.pairwise_append]
    refine ⟨List.Pairwise.sublist (List.filter_sublist db) h, by simp, ?_⟩
    intro x hx y hy
    simp only [List.mem_filter, bne_iff_ne, ne_eq] at hx
    simp only [List.mem_singleton] at hy
    subst hy
    exact hx.2
  · unfold mark_processed
    rw [List.filter_append, List.filter_filter]
    have h1 : ∀ r : ProcessedRecord,
        ((r.url_hash == url_hash fp a) &&
          (r.url_hash != url_hash fp a)) = false := by
      intro r
      by_cases hr : r.url_hash = url_hash fp a <;> simp [hr]
    simp [h1]

/-- Witness for C1 at a concrete input: the empty store, an article, and
two summaries. -/
theorem mark_processed_upsert_witness :
    OneRecordPerFp [] ∧
    (OneRecordPerFp (mark_processed (fun s => s) [] ⟨"t", "u", "c", none, "f", "g"⟩ (some "s1") "t1") ∧
    (mark_processed (fun s => s)
        (mark_processed (fun s => s) [] ⟨"t", "u", "c", none, "f", "g"⟩ (some "s1") "t1")
        ⟨"t", "u", "c", none, "f", "g"⟩ (some "s2") "t2").filter
        (fun r => r.url_hash == url_hash (fun s => s) ⟨"t", "u", "c", none, "f", "g"⟩) =
      [⟨url_hash (fun s => s) ⟨"t", "u", "c", none, "f", "g"⟩, "u", "t", "f", some "s2", "t2"⟩]) :=
  ⟨List.Pairwise.nil,
    mark_processed_upsert (fun s => s) [] ⟨"t", "u", "c", none, "f", "g"⟩
      (some "s1") (some "s2") "t1" "t2" List.Pairwise.nil⟩

/-! ### Claim C2 -/

/-- C2: `filter_new_articles` returns the subsequence of the input whose
fingerprint is not yet recorded, in input order; and after marking every
returned item processed (with arbitrary summaries and timestamps), a
second `filter_new_articles` on the same input returns the empty list. -/
theorem filter_new_articles_spec (fp : String → String) (db : DB)
    (items : List Article) (sf : Article → Option String)
    (tf : Article → String) :
    (filter_new_articles fp db items).Sublist items ∧
    (∀ a, a ∈ filter_new_articles fp db items ↔
      a ∈ items ∧ is_processed fp db a = false) ∧
    filter_new_articles fp
      ((filter_new_articles fp db items).foldl
        (fun d x => mark_processed fp d x (sf x) (tf x)) db)
      items = [] := by
  refine ⟨List.filter_sublist items, ?_, ?_⟩
  · intro a
    simp [filter_new_articles, List.mem_filter]
  · rw [filter_new_articles, List.filter_eq_nil_iff]
    intro a ha
    simp only [Bool.not_eq_true', Bool.not_eq_false]
    apply is_processed_foldl_mark
    by_cases h : is_processed fp db a = true
    · exact Or.inl h
    · refine Or.inr ?_
      simp only [filter_new_articles, List.mem_filter]
      exact ⟨ha, by simp [Bool.not_eq_true'] at h ⊢; exact h⟩

/-! ### Claims C6 and C7 -/

/-- The accumulation loop of `filter_by_age` is the order-preserving
filter by `keepsByAge`. -/
theorem filter_by_age_eq_filter (articles : List Article)
    (max_age_hours now : Int) :
    filter_by_age articles max_age_hours now =
      articles.filter (keepsByAge (now - max_age_hours * 3600)) := by
  unfold filter_by_age
  suffices h : ∀ (l : List Article) (acc : List Article),
      l.foldl
        (fun filtered a =>
          match a.published with
          | none => filtered ++ [a]
          | some p =>
            if now - max_age_hours * 3600 ≤ p then filtered ++ [a]
            else filtered)
        acc
      = acc ++ l.filter (keepsByAge (now - max_age_hours * 3600)) by
    simpa using h articles []
  intro l
  induction l with
  | nil => intro acc; simp
  | cons a t ih =>
    intro acc
    rw [List.foldl_cons, List.filter_cons]
    have hstep :
        (match a.published with
          | none => acc ++ [a]
          | some p =>
            if now - max_age_hours * 3600 ≤ p then acc ++ [a]
            else acc)
        = acc ++
          (if keepsByAge (now - max_age_hours * 3600) a = true then [a]
            else []) := by
      cases h : a.published with
      | none => simp [keepsByAge, h]
      | some p =>
        by_cases hp : now - max_age_hours * 3600 ≤ p <;>
          simp [keepsByAge, h, hp]
    rw [hstep, ih]
    by_cases hk : keepsByAge (now - max_age_hours * 3600) a = true <;>
      simp [hk]

/-- C6: the recency filter returns exactly the input items whose
published timestamp is absent or satisfies `published ≥ now -
maxAgeHours`, preserving input order; an item published exactly at the
cutoff is included and any strictly older item is excluded. -/
theorem filter_by_age_spec (articles : List Article)
    (max_age_hours now : Int) :
    (filter_by_age articles max_age_hours now).Sublist articles ∧
    (∀ a, a ∈ filter_by_age articles max_age_hours now ↔
      a ∈ articles ∧ (a.published = none ∨
        ∃ p, a.published = some p ∧ now - max_age_hours * 3600 ≤ p)) ∧
    (∀ a ∈ articles, a.published = some (now - max_age_hours * 3600) →
      a ∈ filter_by_age articles max_age_hours now) ∧
    (∀ a ∈ articles, ∀ p, a.published = some p →
      p < now - max_age_hours * 3600 →
      a ∉ filter_by_age articles max_age_hours now) := by
  rw [filter_by_age_eq_filter]
  have hmem : ∀ a : Article,
      a ∈ articles.filter (keepsByAge (now - max_age_hours * 3600)) ↔
      a ∈ articles ∧ (a.published = none ∨
        ∃ p, a.published = some p ∧ now - max_age_hours * 3600 ≤ p) := by
    intro a
    rw [List.mem_filter]
    refine and_congr_right fun _ => ?_
    cases h : a.published with
    | none => simp [keepsByAge, h]
    | some p => simp [keepsByAge, h]
  refine ⟨List.filter_sublist articles, hmem, ?_, ?_⟩
  · intro a ha hpub
    exact (hmem a).mpr ⟨ha, Or.inr ⟨_, hpub, le_refl _⟩⟩
  · intro a ha p hpub hlt hcontra
    rcases ((hmem a).mp hcontra).2 with h | ⟨q, hq, hle⟩
    · rw [h] at hpub; exact Option.noConfusion hpub
    · rw [hpub] at hq
      exact absurd hle (by simp [Option.some.injEq] at hq; omega)

/-- C7: when the conditional fetch reports 304 Not Modified, `fetch_feed`
returns the empty article list and the whole cache — in particular the
validator entry for the url — unchanged, without looking at the entries
(`feed.entries` is arbitrary in the statement and absent from the
conclusion). -/
theorem fetch_feed_304 (cfg : FeedConfig) (cache : Cache)
    (feed : ParsedFeed) (h : feed.status = some 304) :
    fetch_feed cfg cache (.parsed feed) = ([], cache) := by
  simp [fetch_feed, h]

/-- Witness for C7: a concrete feed carrying a 304 status together with
fresh validators and a non-empty entry list, none of which reach the
result. -/
theorem fetch_feed_304_witness :
    (ParsedFeed.status ⟨some 304, some "e2", some "m2", false,
        [⟨some "t", some "http://x/1", some "c", none, none, some 5, none⟩]⟩
      = some 304) ∧
    fetch_feed ⟨"f", "http://x", some "tech"⟩
      [("http://x", [("etag", "e1")])]
      (.parsed ⟨some 304, some "e2", some "m2", false,
        [⟨some "t", some "http://x/1", some "c", none, none, some 5, none⟩]⟩)
      = ([], [("http://x", [("etag", "e1")])]) :=
  ⟨rfl,
    fetch_feed_304 ⟨"f", "http://x", some "tech"⟩
      [("http://x", [("etag", "e1")])]
      ⟨some 304, some "e2", some "m2", false,
        [⟨some "t", some "http://x/1", some "c", none, none, some 5, none⟩]⟩
      rfl⟩

/-! ### Claim C4 -/

/-- C4: an exception raised while fetching one source is caught and
yields the empty article list with the cache untouched, and a run over a
source list containing the failing source produces exactly the run over
the list without it — the remaining sources are all still fetched, with
identical results and identical saved cache. -/
theorem fetch_error_isolated (cfg : FeedConfig) (msg : String)
    (pre post : List (FeedConfig × FetchOutcome)) (cache : Cache)
    (file : Option String) :
    fetch_feed cfg cache (.raised msg) = ([], cache) ∧
    fetch_loop (pre ++ (cfg, .raised msg) :: post) cache =
      fetch_loop (pre ++ post) cache ∧
    fetch_all_feeds file (pre ++ (cfg, .raised msg) :: post) =
      fetch_all_feeds file (pre ++ post) := by
  have h1 : ∀ c : Cache, fetch_feed cfg c (.raised msg) = ([], c) := by
    intro c; rfl
  have h2 : ∀ c : Cache,
      fetch_loop (pre ++ (cfg, .raised msg) :: post) c =
        fetch_loop (pre ++ post) c := by
    induction pre with
    | nil =>
      intro c
      simp only [List.nil_append]
      show (let step := fetch_feed cfg c (.raised msg)
        let restResult := fetch_loop post step.2
        (step.1 ++ restResult.1, restResult.2)) = fetch_loop post c
      rw [h1]
      simp
    | cons hd t ih =>
      intro c
      obtain ⟨hcfg, ho⟩ := hd
      simp only [List.cons_append, fetch_loop, List.append_eq]
      rw [ih]
  refine ⟨h1 cache, h2 cache, ?_⟩
  unfold fetch_all_feeds
  simp only [h2]

/-! ### Claim C9 -/

theorem asString_data (s : String) : s.data.asString = s := rfl

theorem data_asString (l : List Char) : l.asString.data = l := rfl

theorem skipWs_space (l : List Char) : skipWs (' ' :: l) = skipWs l := by
  simp [skipWs, isJsonWs]

theorem skipWs_newline (l : List Char) : skipWs ('\n' :: l) = skipWs l := by
  simp [skipWs, isJsonWs]

theorem skipWs_quote (l : List Char) : skipWs ('"' :: l) = '"' :: l := by
  simp [skipWs, isJsonWs]

theorem skipWs_colon (l : List Char) : skipWs (':' :: l) = ':' :: l := by
  simp [skipWs, isJsonWs]

theorem skipWs_comma (l : List Char) : skipWs (',' :: l) = ',' :: l := by
  simp [skipWs, isJsonWs]

theorem skipWs_lbrace (l : List Char) : skipWs ('\x7b' :: l) = '\x7b' :: l := by
  simp [skipWs, isJsonWs]

theorem skipWs_rbrace (l : List Char) : skipWs ('\x7d' :: l) = '\x7d' :: l := by
  simp [skipWs, isJsonWs]

theorem printJStr_cons (s X : List Char) :
    printJStr s ++ X = '"' :: (escJson s ++ ('"' :: X)) := by
  simp [printJStr]

theorem skipWs_printJStr (s X : List Char) :
    skipWs (printJStr s ++ X) = printJStr s ++ X := by
  rw [printJStr_cons, skipWs_quote]

theorem escJson_nil : escJson [] = [] := rfl

theorem escJson_cons (c : Char) (t : List Char) :
    escJson (c :: t) =
      (if c = '"' || c = '\\' then ['\\', c] else [c]) ++ escJson t := by
  simp [escJson]

theorem parseStrBody_quote (rest : List Char) :
    parseStrBody ('"' :: rest) = some ([], rest) := by
  rw [parseStrBody.eq_def]
  simp

theorem parseStrBody_bs (d : Char) (rest2 : List Char) :
    parseStrBody ('\\' :: d :: rest2) =
      match parseStrBody rest2 with
      | none => none
      | some (s, r) => some (d :: s, r) := by
  rw [parseStrBody.eq_def]
  simp

theorem parseStrBody_other (c : Char) (rest : List Char) (h1 : c ≠ '"')
    (h2 : c ≠ '\\') :
    parseStrBody (c :: rest) =
      match parseStrBody rest with
      | none => none
      | some (s, r) => some (c :: s, r) := by
  rw [parseStrBody.eq_def]
  simp [h1, h2]

/-- The string-body parser inverts the escaping of the printer. -/
theorem parseStrBody_esc (s rest : List Char) :
    parseStrBody (escJson s ++ '"' :: rest) = some (s, rest) := by
  induction s with
  | nil => simp [escJson_nil, parseStrBody_quote]
  | cons c t ih =>
    rw [escJson_cons]
    by_cases h1 : c = '"'
    · subst h1
      simp [parseStrBody_bs, ih, List.cons_append, List.append_assoc]
    · by_cases h2 : c = '\\'
      · subst h2
        simp [parseStrBody_bs, ih, List.cons_append, List.append_assoc]
      · simp [parseStrBody_other, h1, h2, ih, List.cons_append,
          List.append_assoc]

/-- The string parser inverts the string printer. -/
theorem parseJStr_print (s rest : List Char) :
    parseJStr (printJStr s ++ rest) = some (s, rest) := by
  rw [printJStr_cons]
  simp [parseJStr, parseStrBody_esc]

theorem innerSep_append (t : List (String × String)) (X Y : List Char) :
    innerSep t X ++ Y = innerSep t (X ++ Y) := by
  induction t generalizing X with
  | nil => simp [innerSep]
  | cons hd t2 ih =>
    obtain ⟨k, v⟩ := hd
    simp [innerSep, List.cons_append, List.append_assoc, ih]

theorem outerSep_append (t : Cache) (X Y : List Char) :
    outerSep t X ++ Y = outerSep t (X ++ Y) := by
  induction t generalizing X with
  | nil => simp [outerSep]
  | cons hd t2 ih =>
    obtain ⟨k, v⟩ := hd
    simp [outerSep, List.cons_append, List.append_assoc, ih]

theorem innerSep_length (t : List (String × String)) (tail : List Char) :
    t.length ≤ (innerSep t tail).length := by
  induction t with
  | nil => simp [innerSep]
  | cons hd t2 ih =>
    obtain ⟨k, v⟩ := hd
    simp only [innerSep, List.length_cons, List.length_append]
    omega

theorem outerSep_length (t : Cache) (tail : List Char) :
    t.length ≤ (outerSep t tail).length := by
  induction t with
  | nil => simp [outerSep]
  | cons hd t2 ih =>
    obtain ⟨k, v⟩ := hd
    simp only [outerSep, List.length_cons, List.length_append]
    omega

/-- The inner-object pair loop inverts the printer from the position of a
key, for any sufficient fuel. -/
theorem parseInnerLoop_go (tail : List Char) :
    ∀ (t : List (String × String)) (k v : String) (fuel : Nat),
      t.length < fuel →
      parseInnerLoop fuel
        (printJStr k.data ++ ':' :: ' ' :: (printJStr v.data ++ innerSep t tail))
        = some ((k, v) :: t, tail) := by
  intro t
  induction t with
  | nil =>
    intro k v fuel hfuel
    cases fuel with
    | zero => omega
    | succ f =>
      simp [parseInnerLoop, parseJStr_print, innerSep, rbrace, skipWs_colon,
        skipWs_space, skipWs_newline, skipWs_rbrace, skipWs_printJStr,
        asString_data]
  | cons hd t2 ih =>
    obtain ⟨k2, v2⟩ := hd
    intro k v fuel hfuel
    cases fuel with
    | zero => omega
    | succ f =>
      have hb : t2.length < f := by
        simp only [List.length_cons] at hfuel
        omega
      have ihx := ih k2 v2 f hb
      simp [parseInnerLoop, parseJStr_print, innerSep, skipWs_colon,
        skipWs_space, skipWs_newline, skipWs_comma, skipWs_printJStr,
        asString_data, ihx]

/-- The inner-object parser inverts the inner printer. -/
theorem parseInner_print (e : CacheEntry) (rest : List Char) :
    parseInner (dumpsInner e ++ rest) = some (e, rest) := by
  cases e with
  | nil =>
    simp [dumpsInner, parseInner, lbrace, rbrace, skipWs_lbrace, skipWs_rbrace]
  | cons hd t =>
    obtain ⟨k, v⟩ := hd
    have hform : dumpsInner ((k, v) :: t) ++ rest
        = '\x7b' :: '\n' :: ' ' :: ' ' :: ' ' :: ' ' ::
          (printJStr k.data ++ ':' :: ' ' ::
            (printJStr v.data ++ innerSep t rest)) := by
      simp [dumpsInner, lbrace, List.cons_append, List.append_assoc,
        innerSep_append]
    rw [hform]
    rw [parseInner.eq_def]
    rw [skipWs_lbrace]
    simp only [lbrace, reduceIte, skipWs_newline, skipWs_space]
    rw [printJStr_cons, skipWs_quote]
    simp only [rbrace, reduceIte]
    rw [← printJStr_cons]
    apply parseInnerLoop_go
    have h1 := innerSep_length t rest
    simp only [printJStr, List.length_append, List.length_cons]
    omega

/-- A single leading space does not change the result of the
inner-object parser. -/
theorem parseInner_space (X : List Char) :
    parseInner (' ' :: X) = parseInner X := by
  rw [parseInner.eq_def, parseInner.eq_def, skipWs_space]

/-- The outer pair loop inverts the printer from the position of a url
key, for any sufficient fuel. -/
theorem parseOuterLoop_go (tail : List Char) :
    ∀ (t : Cache) (k : String) (v : CacheEntry) (fuel : Nat),
      t.length < fuel →
      parseOuterLoop fuel
        (printJStr k.data ++ ':' :: ' ' :: (dumpsInner v ++ outerSep t tail))
        = some ((k, v) :: t, tail) := by
  intro t
  induction t with
  | nil =>
    intro k v fuel hfuel
    cases fuel with
    | zero => omega
    | succ f =>
      simp [parseOuterLoop, parseJStr_print, outerSep, rbrace, skipWs_colon,
        skipWs_newline, skipWs_rbrace, parseInner_space, parseInner_print,
        asString_data]
  | cons hd t2 ih =>
    obtain ⟨k2, v2⟩ := hd
    intro k v fuel hfuel
    cases fuel with
    | zero => omega
    | succ f =>
      have hb : t2.length < f := by
        simp only [List.length_cons] at hfuel
        omega
      have ihx := ih k2 v2 f hb
      simp [parseOuterLoop, parseJStr_print, outerSep, skipWs_colon,
        skipWs_space, skipWs_newline, skipWs_comma, skipWs_printJStr,
        parseInner_space, parseInner_print, asString_data, ihx]

/-- The outer parser inverts `dumpsCache`. -/
theorem parseOuter_print (m : Cache) (rest : List Char) :
    parseOuter (dumpsCache m ++ rest) = some (m, rest) := by
  cases m with
  | nil =>
    simp [dumpsCache, parseOuter, lbrace, rbrace, skipWs_lbrace, skipWs_rbrace]
  | cons hd t =>
    obtain ⟨k, v⟩ := hd
    have hform : dumpsCache ((k, v) :: t) ++ rest
        = '\x7b' :: '\n' :: ' ' :: ' ' ::
          (printJStr k.data ++ ':' :: ' ' ::
            (dumpsInner v ++ outerSep t rest)) := by
      simp [dumpsCache, lbrace, List.cons_append, List.append_assoc,
        outerSep_append]
    rw [hform]
    rw [parseOuter.eq_def]
    rw [skipWs_lbrace]
    simp only [lbrace, reduceIte, skipWs_newline, skipWs_space]
    rw [printJStr_cons, skipWs_quote]
    simp only [rbrace, reduceIte]
    rw [← printJStr_cons]
    apply parseOuterLoop_go
    have h1 := outerSep_length t rest
    simp only [printJStr, List.length_append, List.length_cons]
    omega

/-- Saving any mapping produces a file that loads back to that very
mapping. -/
theorem dumps_parse (m : Cache) :
    parseCacheFile (save_cache m) = some m := by
  unfold parseCacheFile save_cache
  rw [data_asString]
  have h : parseOuter (dumpsCache m) = some (m, []) := by
    have h0 := parseOuter_print m []
    simpa using h0
  rw [h]
  simp [skipWs]

/-- C9: if the persisted cache file holds a well-formed validator
mapping, `save(load())` leaves the persisted mapping structurally
unchanged — loading again after `save(load())` yields the same
url-to-validator mapping. -/
theorem cache_roundtrip (s : String) (m : Cache)
    (h : parseCacheFile s = some m) :
    parseCacheFile (save_cache (load_cache (some s))) =
      some (load_cache (some s)) ∧
    load_cache (some (save_cache (load_cache (some s)))) =
      load_cache (some s) := by
  have hl : load_cache (some s) = m := by simp [load_cache, h]
  rw [hl]
  exact ⟨dumps_parse m, by simp [load_cache, dumps_parse m]⟩

/-- Witness for C9: a concrete one-url cache file, exactly as
`json.dumps(·, indent=2)` lays it out. -/
theorem cache_roundtrip_witness :
    (parseCacheFile "\x7b\n  \"u\": \x7b\n    \"etag\": \"e\"\n  \x7d\n\x7d"
      = some [("u", [("etag", "e")])]) ∧
    (parseCacheFile (save_cache (load_cache
        (some "\x7b\n  \"u\": \x7b\n    \"etag\": \"e\"\n  \x7d\n\x7d"))) =
      some (load_cache
        (some "\x7b\n  \"u\": \x7b\n    \"etag\": \"e\"\n  \x7d\n\x7d")) ∧
    load_cache (some (save_cache (load_cache
        (some "\x7b\n  \"u\": \x7b\n    \"etag\": \"e\"\n  \x7d\n\x7d")))) =
      load_cache
        (some "\x7b\n  \"u\": \x7b\n    \"etag\": \"e\"\n  \x7d\n\x7d")) :=
  ⟨by decide,
    cache_roundtrip "\x7b\n  \"u\": \x7b\n    \"etag\": \"e\"\n  \x7d\n\x7d"
      [("u", [("etag", "e")])] (by decide)⟩

/-! ### Claim C3 -/

/-- A raising transport makes the adapter's send return `false` (the
exception is caught inside the adapter, never propagated). -/
theorem Adapter.send_of_raises (ad : Adapter) (a : Article) (s : String)
    (h : ad.raises a s = true) : ad.send a s = false := by
  cases ad with
  | feishu tr =>
    cases htr : tr a s with
    | error e => simp [Adapter.send, feishu_send, htr]
    | ok r => simp [Adapter.raises, htr] at h
  | telegram tr =>
    cases htr : tr a s with
    | error e => simp [Adapter.send, telegram_send, htr]
    | ok r => simp [Adapter.raises, htr] at h
  | email tr =>
    cases htr : tr a s with
    | error e => simp [Adapter.send, email_send, htr]
    | ok r => simp [Adapter.raises, htr] at h

/-- C3: if the transport of one configured channel raises inside its
`send`, `Notifier.notify` still returns an outcome for every configured
channel — the result list has the same channel names in the same order —
and the faulty channel's entry is `false`. -/
theorem notify_isolates (cfg : List (String × Adapter)) (a : Article)
    (s : String) (i : Nat) (hi : i < cfg.length)
    (hraise : (cfg[i]).2.raises a s = true) :
    (notify cfg a s).map Prod.fst = cfg.map Prod.fst ∧
    (notify cfg a s).length = cfg.length ∧
    (notify cfg a s)[i]? = some ((cfg[i]).1, false) := by
  refine ⟨?_, by simp [notify], ?_⟩
  · simp [notify]
  · rw [notify, List.getElem?_map, List.getElem?_eq_getElem hi]
    simp [Adapter.send_of_raises _ _ _ hraise]

/-- Witness for C3: three configured channels of the three kinds, the
Feishu transport raising; the other two channels keep their outcomes and
the Feishu entry is `false`. -/
theorem notify_isolates_witness :
    ((cfgW.get ⟨0, by decide⟩).2.raises articleW "s" = true) ∧
    ((notify cfgW articleW "s").map Prod.fst = cfgW.map Prod.fst ∧
     (notify cfgW articleW "s").length = cfgW.length ∧
     (notify cfgW articleW "s")[0]? = some ((cfgW.get ⟨0, by decide⟩).1, false)) :=
  ⟨rfl, notify_isolates cfgW articleW "s" 0 (by decide) rfl⟩

/-! ### Claim C5 -/

/-- The per-article loop never un-processes an article. -/
theorem process_loop_mono (fp : String → String)
    (summarize : Article → Option String) (clock : Nat → String) :
    ∀ (batch : List Article) (i : Nat) (db : DB) (a : Article),
      is_processed fp db a = true →
      is_processed fp (process_loop fp summarize clock batch i db).1 a
        = true := by
  intro batch
  induction batch with
  | nil => intro i db a h; simpa [process_loop] using h
  | cons b bs ih =>
    intro i db a h
    cases hs : summarize b with
    | some s =>
      simp only [process_loop, hs]
      exact ih _ _ a (is_processed_mark_mono fp b (some s) (clock i) h)
    | none =>
      simp only [process_loop, hs]
      exact ih _ _ a (is_processed_mark_mono fp b none (clock i) h)

/-- Every batch article whose summarization fails is recorded by a
`mark_processed(article, None)` call and is processed afterwards. -/
theorem process_loop_none (fp : String → String)
    (summarize : Article → Option String) (clock : Nat → String) :
    ∀ (batch : List Article) (i : Nat) (db : DB) (a : Article),
      a ∈ batch → summarize a = none →
      (∃ t, (a, none, t) ∈ (process_loop fp summarize clock batch i db).2) ∧
      is_processed fp (process_loop fp summarize clock batch i db).1 a
        = true := by
  intro batch
  induction batch with
  | nil => intro i db a h; simp at h
  | cons b bs ih =>
    intro i db a hmem hfail
    rcases List.mem_cons.mp hmem with rfl | hmem2
    · rw [process_loop, hfail]
      constructor
      · exact ⟨clock i, by simp⟩
      · exact process_loop_mono fp summarize clock bs (i + 1) _ a
          (is_processed_mark_self fp db a none (clock i))
    · cases hs : summarize b with
      | some s =>
        simp only [process_loop, hs]
        obtain ⟨⟨t, ht⟩, hp⟩ := ih (i + 1) _ a hmem2 hfail
        exact ⟨⟨t, by simp [ht]⟩, hp⟩
      | none =>
        simp only [process_loop, hs]
        obtain ⟨⟨t, ht⟩, hp⟩ := ih (i + 1) _ a hmem2 hfail
        exact ⟨⟨t, by simp [ht]⟩, hp⟩

/-- A processed article is not selected as new. -/
theorem filter_new_single (fp : String → String) (db : DB) (a : Article)
    (h : is_processed fp db a = true) :
    filter_new_articles fp db [a] = [] := by
  simp [filter_new_articles, h]

/-- C5: for every article of the capped batch for which the summarizer
returns `None`, the orchestrator still issues a
`mark_processed(article, None)` call — the record is written with an
absent summary — and a subsequent run presented with the same article
does not select it as new again. -/
theorem run_once_summarize_failure (fp : String → String)
    (summarize : Article → Option String) (clock : Nat → String)
    (max_articles : Nat) (max_age_hours now : Int)
    (all_articles : List Article) (db : DB) (a : Article)
    (hmem : a ∈ (filter_new_articles fp db
      (filter_by_age all_articles max_age_hours now)).take max_articles)
    (hfail : summarize a = none) :
    (∃ t, (a, none, t) ∈
      (run_once fp summarize clock max_articles max_age_hours now
        all_articles db).2) ∧
    is_processed fp
      (run_once fp summarize clock max_articles max_age_hours now
        all_articles db).1 a = true ∧
    filter_new_articles fp
      (run_once fp summarize clock max_articles max_age_hours now
        all_articles db).1 [a] = [] := by
  have hne : filter_new_articles fp db
      (filter_by_age all_articles max_age_hours now) ≠ [] := by
    intro h
    rw [h] at hmem
    simp at hmem
  unfold run_once
  simp only [if_neg hne]
  obtain ⟨htrace, hproc⟩ := process_loop_none fp summarize clock _ 0 db a
    hmem hfail
  exact ⟨htrace, hproc, filter_new_single fp _ a hproc⟩

/-- Witness for C5: one fresh article, a summarizer that always fails;
the article is recorded with an absent summary and a second
`filter_new_articles` on it returns nothing. -/
theorem run_once_summarize_failure_witness :
    (articleW ∈ (filter_new_articles (fun s => s) []
      (filter_by_age [articleW] 24 1000)).take 10) ∧
    ((fun _ : Article => (none : Option String)) articleW = none) ∧
    ((∃ t, (articleW, none, t) ∈
      (run_once (fun s => s) (fun _ => none) (fun _ => "T") 10 24 1000
        [articleW] []).2) ∧
    is_processed (fun s => s)
      (run_once (fun s => s) (fun _ => none) (fun _ => "T") 10 24 1000
        [articleW] []).1 articleW = true ∧
    filter_new_articles (fun s => s)
      (run_once (fun s => s) (fun _ => none) (fun _ => "T") 10 24 1000
        [articleW] []).1 [articleW] = []) :=
  ⟨by decide, rfl,
    run_once_summarize_failure (fun s => s) (fun _ => none) (fun _ => "T")
      10 24 1000 [articleW] [] articleW (by decide) rfl⟩

/-! ### Claim C10 -/

/-- C10: the statistics query is consistent — `total_articles` equals the
sum of the per-feed counts of `by_feed`, and each feed name appears in
exactly one group. -/
theorem get_stats_consistent (db : DB) :
    (get_stats db).1 = ((get_stats db).2.map Prod.snd).sum ∧
    ((get_stats db).2.map Prod.fst).Nodup := by
  simp only [get_stats]
  have hperm := List.mergeSort_perm
    ((db.map (fun r => r.feed_name)).dedup.map
      (fun n => (n, (db.map (fun r => r.feed_name)).count n)))
    (fun p q => decide (q.2 ≤ p.2))
  constructor
  · rw [(hperm.map Prod.snd).sum_eq, List.map_map]
    have hc : (Prod.snd ∘ fun n => (n, (db.map (fun r => r.feed_name)).count n))
        = fun n => (db.map (fun r => r.feed_name)).count n := rfl
    rw [hc, List.sum_map_count_dedup_eq_length, List.length_map]
  · have hnd : ((db.map (fun r => r.feed_name)).dedup.map
        (fun n => (n, (db.map (fun r => r.feed_name)).count n))).map Prod.fst
        = (db.map (fun r => r.feed_name)).dedup := by
      rw [List.map_map]
      exact List.map_id _
    exact (hperm.map Prod.fst).symm.nodup
      (hnd.symm ▸ List.nodup_dedup (db.map (fun r => r.feed_name)))

/-! ### Claim C8 -/

/-- One replacement step turns the one-pass escaper for the processed
set `S` into the one for `S ++ [c]`, as long as `c` is new and no
backslash has been a pattern. -/
theorem replaceChar_step (S : List Char) (c : Char) (t : List Char)
    (hcS : c ∉ S) (hbS : '\\' ∉ S) (hbc : c ≠ '\\') :
    replaceChar c (t.flatMap (fun x => if x ∈ S then ['\\', x] else [x]))
      = t.flatMap (fun x => if x ∈ S ++ [c] then ['\\', x] else [x]) := by
  unfold replaceChar
  rw [List.flatMap_assoc]
  congr 1
  funext x
  by_cases hxS : x ∈ S
  · have hxc : ¬x = c := fun h => hcS (h ▸ hxS)
    simp [hxS, hxc, Ne.symm hbc]
  · by_cases hxc : x = c
    · subst hxc
      simp [hxS]
    · simp [hxS, hxc]

/-- The sequential replacement fold over fresh characters extends the
one-pass escaper. -/
theorem foldl_replace (cs : List Char) :
    ∀ (S : List Char) (t : List Char),
      (∀ c ∈ cs, c ∉ S) → '\\' ∉ S → '\\' ∉ cs → cs.Nodup →
      cs.foldl (fun acc c => replaceChar c acc)
        (t.flatMap (fun x => if x ∈ S then ['\\', x] else [x]))
      = t.flatMap (fun x => if x ∈ S ++ cs then ['\\', x] else [x]) := by
  induction cs with
  | nil => intro S t _ _ _ _; simp
  | cons c cs' ih =>
    intro S t hdisj hbS hbcs hnd
    have hbc : c ≠ '\\' := by
      rintro rfl
      exact hbcs (List.mem_cons_self _ _)
    rw [List.foldl_cons,
      replaceChar_step S c t (hdisj c (List.mem_cons_self _ _)) hbS hbc]
    have h1 : ∀ d ∈ cs', d ∉ S ++ [c] := by
      intro d hd
      simp only [List.mem_append, List.mem_singleton]
      rintro (hdS | rfl)
      · exact hdisj d (List.mem_cons_of_mem _ hd) hdS
      · exact (List.nodup_cons.mp hnd).1 hd
    have h2 : '\\' ∉ S ++ [c] := by
      simp only [List.mem_append, List.mem_singleton]
      rintro (hS | hc)
      · exact hbS hS
      · exact hbc hc.symm
    have h3 : '\\' ∉ cs' := fun h => hbcs (List.mem_cons_of_mem _ h)
    have h4 : cs'.Nodup := (List.nodup_cons.mp hnd).2
    rw [ih (S ++ [c]) t h1 h2 h3 h4]
    simp

/-- `_escape_markdown` is the one-pass escaper: every reserved character
of the input comes out preceded by a backslash, and nothing else
changes. -/
theorem escape_markdown_eq_spec (t : List Char) :
    escape_markdown t
      = t.flatMap (fun x => if x ∈ mdReservedChars then ['\\', x] else [x]) := by
  have h := foldl_replace mdReservedChars [] t (by simp) (by simp)
    (by decide) (by decide)
  simpa [escape_markdown] using h

/-- C8 (amended): `TelegramNotifier` escapes every Markdown-reserved
character of the title and the summary it interpolates — its message is
the template with the one-pass backslash escaper applied to exactly
those two fields — while the url, feed name and category are
interpolated raw (and, per the counterexample, the Email and Feishu
adapters escape nothing). -/
theorem telegram_escapes_title_and_summary (a : Article) (s : String) :
    telegram_text a s =
      "📰 *".data ++ a.feed_name.data ++ "*\n\n*".data
        ++ a.title.data.flatMap
            (fun x => if x ∈ mdReservedChars then ['\\', x] else [x])
        ++ "*\n\n".data
        ++ s.data.flatMap
            (fun x => if x ∈ mdReservedChars then ['\\', x] else [x])
        ++ "\n\n[🔗 阅读原文](".data ++ a.url.data ++ ")\n\n_分类: ".data
        ++ a.category.data ++ "_".data := by
  unfold telegram_text
  rw [escape_markdown_eq_spec, escape_markdown_eq_spec]

set_option maxRecDepth 8192

/-- Counterexample for C8 as stated: with the title `"A&B"`, the Email
payload carries the HTML-significant `&` verbatim (`"A&B"` is a chunk of
the payload) and contains no `"&amp;"` — the encoding `htmlEscapeSpec`
the claim requires never happened; and the Telegram message interpolates
a url containing Markdown-significant parentheses raw into the
`[..](..)` link syntax, with no backslash escapes. -/
theorem adapters_do_not_encode_counterexample :
    (htmlEscapeSpec "A&B".data = "A&amp;B".data) ∧
    (containsChunk
      (email_html ⟨"A&B", "http://u", "c", none, "f", "g"⟩ "s") "A&B".data
      = true) ∧
    (containsChunk
      (email_html ⟨"A&B", "http://u", "c", none, "f", "g"⟩ "s") "&amp;".data
      = false) ∧
    (containsChunk
      (telegram_text ⟨"t", "http://x/(1)", "c", none, "f", "g"⟩ "s")
      "(http://x/(1))".data = true) ∧
    (containsChunk
      (telegram_text ⟨"t", "http://x/(1)", "c", none, "f", "g"⟩ "s")
      "\\(1\\)".data = false) :=
  ⟨by decide, by decide, by decide, by decide, by decide⟩

end RssReader
